import Mathlib

/-!
Verification of the majimix audio mixer (C++ sources: majimix.cpp, mixer_buffer.cpp,
kss.cpp, converters.inl) against its natural-language specification.

The C++ code is shallowly embedded: machine integers are modelled as `Nat`/`Int`
with explicit reductions modulo `2^w` at the points where the C++ code converts
or truncates; `std::vector` contents become `List`; the PortAudio stream pointer
becomes a boolean `m_stream`; the libkss engine is abstracted by the values the
code reads from it (rendered samples, stop flag).
-/

namespace Majimix

/-! ## Machine-integer helpers -/

/-- Interpretation of a bit pattern as a 32-bit two's-complement signed value
(the result of storing a wider value into a C++ `int`). -/
def toSigned32 (b : Nat) : Int :=
  if b % 2 ^ 32 < 2 ^ 31 then ((b % 2 ^ 32 : Nat) : Int) else ((b % 2 ^ 32 : Nat) : Int) - 2 ^ 32

/-- Interpretation of a bit pattern as an 8-bit two's-complement signed value
(a C++ `char` holding the byte `b`, on the signed-char platforms majimix targets). -/
def toSigned8 (b : Nat) : Int :=
  if b % 2 ^ 8 < 2 ^ 7 then ((b % 2 ^ 8 : Nat) : Int) else ((b % 2 ^ 8 : Nat) : Int) - 2 ^ 8

/-- Bit pattern of an `int` value converted to `uint64` (C++ integral conversion,
reduction modulo `2^64`). -/
def u64 (v : Int) : Nat := (v % (2 ^ 64 : Int)).toNat

/-- Bit pattern of an `int` value, reduced to its 32 bits. -/
def u32 (v : Int) : Nat := (v % (2 ^ 32 : Int)).toNat

/-- Arithmetic right shift of a signed value, as C++ `>>` on a negative `int`
behaves on the two's-complement targets of this code base. -/
def sar (n : Int) (k : Nat) : Int := n >>> k

/-- Bitwise or of two `int` operands, computed on their 32-bit patterns
(`a | b` in C++). -/
def cpp_or32 (a b : Int) : Int := toSigned32 (u32 a ||| u32 b)

/-! ## Handle codec (majimix.cpp, `get_handle` and friends)

The C++ handles are non-negative `int` values; they are modelled as `Nat`. -/

/-- C++: `handle & 0xFFF`. -/
def get_untyped_source_id (handle : Nat) : Nat := handle &&& 0xFFF

/-- C++: `handle & 0xFFFF`. -/
def get_source_id (handle : Nat) : Nat := handle &&& 0xFFFF

/-- C++: `(handle >> 16) & 0xFFF`. -/
def get_channel_id (handle : Nat) : Nat := (handle >>> 16) &&& 0xFFF

/-- C++: `((channel_id & 0xFFF) << 16) | (source_id & 0xFFFF)`. -/
def get_handle (source_id channel_id : Nat) : Nat :=
  ((channel_id &&& 0xFFF) <<< 16) ||| (source_id &&& 0xFFFF)

/-- C++: `(source_id | 0x1000) & 0xFFFF`. -/
def get_kss_source_id (source_id : Nat) : Nat := (source_id ||| 0x1000) &&& 0xFFFF

/-- C++: `(handle_or_source_id >> 12) & 0xF`. -/
def get_source_type (handle_or_source_id : Nat) : Nat := (handle_or_source_id >>> 12) &&& 0xF

/-! ## Master volume (majimix.cpp, `MajimixPa::set_master_volume`) -/

/-- C++: `master_volume.store(v & 0xFF)`; the mask is computed on the
32-bit two's-complement pattern of `v`. -/
def set_master_volume (v : Int) : Int := toSigned32 (u32 v &&& 0xFF)

/-! ## SamplePCM seek (majimix.cpp, `SamplePCM::seek`)

State: `(sample_idx, sample_frac)`; `sample_idx` is a C++ `int`, `sample_frac`
an unsigned 64-bit fixed-point fraction. `hasSource` models the `source`
pointer being non-null; `size` is `source->size` (total frames). -/

/-- C++: `if(source && pos < source->size && pos >= 0) { sample_idx = pos; sample_frac = 0; }`. -/
def samplePCM_seek (hasSource : Bool) (size : Int) (pos : Int) (st : Int × Nat) : Int × Nat :=
  if hasSource = true ∧ pos < size ∧ pos ≥ 0 then (pos, 0) else st

/-! ## BufferedMixer (mixer_buffer.cpp, `BufferedMixer::read`)

The byte ring. `buffer` holds the ring bytes; positions and sizes are byte
counts as in the C++ (`buffer_packet_size = buffer_sample_size * sample_size`,
`buffer_total_size = buffer_count * buffer_packet_size`). The producer-side
`cv.notify_one()` has no effect on the reader state and is not modelled. -/

structure BMState where
  buffer : List Int
  buffer_packet_size : Nat
  buffer_total_size : Nat
  read_position : Nat
  read_inrange_index : Nat
  write_position : Nat
deriving DecidableEq

/-- Loop of `BufferedMixer::read`, one recursive step per `do`-iteration.
`remaining` is `remaining_out_count`; the produced list is what the iterations
append to `out_buffer`. `fuel` bounds the iteration count; any `fuel ≥ remaining`
is exact because each iteration consumes at least one byte whenever the reader
invariant `read_inrange_index < buffer_packet_size` holds. -/
def bm_read_aux : BMState → Nat → Nat → List Int × BMState
  | st, _, 0 => ([], st)
  | st, remaining, fuel+1 =>
    if remaining = 0 then ([], st)
    else if st.write_position = st.read_position then (List.replicate remaining 0, st)
    else
      let remaining_range := st.buffer_packet_size - st.read_inrange_index
      let take := min remaining_range remaining
      let cur := st.read_position + st.read_inrange_index
      let chunk := (List.range take).map (fun i => st.buffer.getD (cur + i) 0)
      let st2 := if remaining_range - take ≠ 0
        then { st with read_inrange_index := st.read_inrange_index + take }
        else { st with read_inrange_index := 0,
                       read_position :=
                         (st.read_position + st.buffer_packet_size) % st.buffer_total_size }
      let r := bm_read_aux st2 (remaining - take) fuel
      (chunk ++ r.1, r.2)

/-- C++ `BufferedMixer::read(out_buffer, requested_sample_count)`: runs the loop
on `requested_sample_count * sample_size` bytes. -/
def bm_read (st : BMState) (sample_size requested_sample_count : Nat) : List Int × BMState :=
  bm_read_aux st (requested_sample_count * sample_size) (requested_sample_count * sample_size)

/-- Reader invariant of the ring: the in-packet index is strictly inside a packet.
It holds initially (`start()` zeroes `read_inrange_index`) and is preserved by
`read`. -/
def bm_inv (st : BMState) : Prop := st.read_inrange_index < st.buffer_packet_size

/-! ## Source loading (majimix.cpp, `MajimixPa::add_source` / `add_source_kss`)

File parsing is external to the mixer: the booleans record the outcomes of
`majimix::wave::test_wave`, `load_wave`, `ov_test_callbacks` and
`kss::load_kss`. `some ()` stands for a constructed source object in a slot. -/

/-- Load phase of `add_source`: a WAV-looking file must load as WAV; otherwise
the file is probed as Ogg Vorbis. -/
def add_source_load (is_wave wave_loaded vorbis_ok : Bool) : Option Unit :=
  if is_wave then (if wave_loaded then some () else none)
  else if vorbis_ok then some () else none

/-- Slot insertion of `add_source` / `add_source_kss`: fill the first empty
slot, else `push_back`; returns the 1-based slot id and the new table. -/
def slot_insert : List (Option Unit) → Nat → Nat × List (Option Unit)
  | [], i => (i + 1, [some ()])
  | none :: rest, i => (i + 1, some () :: rest)
  | some s :: rest, i =>
    let r := slot_insert rest (i + 1)
    (r.1, some s :: r.2)

/-- C++ `MajimixPa::add_source` (majimix.cpp 2367-2417): returns 0 and leaves
the `sources` table untouched when neither loader succeeds. -/
def add_source (is_wave wave_loaded vorbis_ok : Bool) (sources : List (Option Unit)) :
    Nat × List (Option Unit) :=
  match add_source_load is_wave wave_loaded vorbis_ok with
  | none => (0, sources)
  | some _ => slot_insert sources 0

/-- C++ `MajimixPa::add_source_kss` (majimix.cpp 2420-2472): `lines <= 0` or a
failed `load_kss` return `-1`; otherwise the cartridge is inserted and the kss
handle of the slot is returned. -/
def add_source_kss (kss_loaded : Bool) (lines : Int) (carts : List (Option Unit)) :
    Int × List (Option Unit) :=
  if lines ≤ 0 then (-1, carts)
  else if kss_loaded = false then (-1, carts)
  else
    let r := slot_insert carts 0
    ((get_kss_source_id r.1 : Nat), r.2)

/-! ## KSS cartridge (kss.cpp)

A `KSSLine` keeps only the fields the verified control logic touches; the
libkss emulator behind `kssplay_ptr` is abstracted: `KSSPLAY_calc` output does
not influence the control state, `KSSPLAY_get_stop_flag` is the `stop_flag`
parameter, and `KSSPLAY_reset` / `KSSPLAY_fade_start` calls are reported as
events. `track` values are `uint8` (`Nat` below); `transition_fadeout` is an
`int32_t` and `id` an `int`. -/

structure KSSLineM where
  id : Int
  active : Bool
  pause : Bool
  autostop : Bool
  forcable : Bool
  current_track : Nat
  next_track : Nat
  transition_fadeout : Int
deriving DecidableEq

/-- C++ `CartridgeKSS::activate` (kss.cpp 346-366): stamps the line and raises
`active` last; with a non-zero `fadeout_ms` it also starts the engine fade
(event not needed by the claims) and sets the counter to
`fadeout_ms * m_rate / 1000`. `next_id` is the value of `m_next_mixer` the line
is stamped with (the caller then increments it). -/
def kss_activate (m_rate : Nat) (next_id : Int) (track : Nat) (autostop forcable : Bool)
    (fadeout_ms : Nat) (l : KSSLineM) : KSSLineM :=
  { l with autostop := autostop,
           next_track := track,
           pause := false,
           forcable := forcable,
           id := next_id,
           transition_fadeout := if fadeout_ms ≠ 0 then ((fadeout_ms * m_rate / 1000 : Nat) : Int) else 0,
           active := true }

/-- Control-state part of C++ `CartridgeKSS::read_line_convert` (kss.cpp 435-525)
for one line and one packet of `requested` frames. Returns the updated line, the
track `KSSPLAY_reset` was invoked with (if any), and the returned
`sample_count`. -/
def read_line_convert (stop_flag : Bool) (requested : Int) (l0 : KSSLineM) :
    KSSLineM × Option Nat × Int :=
  if l0.active then
    if !l0.pause then
      let pr := if l0.next_track ≠ 0 ∧ l0.transition_fadeout = 0
        then ({ l0 with current_track := l0.next_track, next_track := 0 }, some l0.next_track)
        else (l0, none)
      let l1 := pr.1
      let d0 := l1.autostop && stop_flag
      let fd := if l1.transition_fadeout ≠ 0 then
          (if l1.transition_fadeout < requested then
            ({ l1 with transition_fadeout := 0 }, decide (l1.next_track = 0))
          else ({ l1 with transition_fadeout := l1.transition_fadeout - requested }, d0))
        else (l1, d0)
      let l2 := fd.1
      if fd.2 then ({ l2 with active := false }, pr.2, requested)
      else (l2, pr.2, requested)
    else (l0, none, 0)
  else (l0, none, 0)

/-- Cartridge state for the line-selection logic (`m_lines`, `m_next_mixer`,
`m_rate`). -/
structure CartKSS where
  lines : List KSSLineM
  m_next_mixer : Int
  m_rate : Nat
deriving DecidableEq

/-- Scan loop of C++ `CartridgeKSS::force_line` (kss.cpp 606-642): 1-based
running index, running minimum `mn` (initialised with `m_next_mixer`) and its
1-based position `idmin` (0 while none found). -/
def force_line_scan : List KSSLineM → Nat → Int → Nat → Int × Nat
  | [], _, mn, idmin => (mn, idmin)
  | l :: ls, base, mn, idmin =>
    if l.forcable = true then
      if l.id < mn then force_line_scan ls (base + 1) l.id (base + 1)
      else force_line_scan ls (base + 1) mn idmin
    else force_line_scan ls (base + 1) mn idmin

/-- C++ `CartridgeKSS::force_line`: scan for the oldest admissible line; when
found (`idmin != 0`), activate it with the default `fadeout_ms = 0` and return
its 1-based index, else return 0. -/
def force_line (track : Nat) (autostop forcable : Bool) (c : CartKSS) : Nat × CartKSS :=
  let scan := force_line_scan c.lines 0 c.m_next_mixer 0
  let idmin := scan.2
  if idmin ≠ 0 then
    match c.lines[idmin - 1]? with
    | some l =>
      (idmin,
       { c with
           lines := c.lines.set (idmin - 1)
             (kss_activate c.m_rate c.m_next_mixer track autostop forcable 0 l),
           m_next_mixer := c.m_next_mixer + 1 })
    | none => (idmin, c)
  else (0, c)

/-! ## Mixer voices and stop_playback (majimix.cpp)

A `MixerChannel` keeps the atomic flags, the ownership of a `Sample`
(`hasSample` models `sample != nullptr`) and the recorded source slot `sid`.
The PortAudio stream pointer `m_stream` is the boolean `m_stream` (true =
stream open). -/

structure VoiceM where
  active : Bool
  stopped : Bool
  paused : Bool
  loop : Bool
  hasSample : Bool
  sid : Nat
deriving DecidableEq

/-- Per-voice mutation of the single-voice and by-source branches of
`MajimixPa::stop_playback`: `stopped = true; if(!m_stream) active = false;`. -/
def stop_voice (m_stream : Bool) (ch : VoiceM) : VoiceM :=
  { ch with stopped := true, active := if m_stream then ch.active else false }

/-- Stop-all branch of `MajimixPa::stop_playback` (handle = 0), mixer-channel
part: every active voice gets `stopped = true; paused = false;` and, when the
stream is closed, also `loop = false; active = false;`. -/
def stop_playback_all (m_stream : Bool) (vs : List VoiceM) : List VoiceM :=
  vs.map fun ch =>
    if ch.active = true then
      { ch with stopped := true, paused := false,
                loop := if m_stream then ch.loop else false,
                active := if m_stream then ch.active else false }
    else ch

/-- Kind-0, voice-0 branch: stop every active voice whose `sid` equals the
handle's source id. -/
def stop_playback_by_source (m_stream : Bool) (source_id : Nat) (vs : List VoiceM) :
    List VoiceM :=
  vs.map fun ch =>
    if ch.active = true ∧ ch.sid = source_id then stop_voice m_stream ch else ch

/-- Kind-0, voice>0 branch: `mixer_channels[channel_id - 1]` is mutated iff it
is active and its `sid` matches. An out-of-range `channel_id` is undefined
behaviour in the C++ and modelled as a no-op. -/
def stop_playback_one (m_stream : Bool) (source_id channel_id : Nat) (vs : List VoiceM) :
    List VoiceM :=
  match vs[channel_id - 1]? with
  | none => vs
  | some ch =>
    if ch.active = true ∧ ch.sid = source_id then
      vs.set (channel_id - 1) (stop_voice m_stream ch)
    else vs

/-- C++ `MajimixPa::stop_playback` (majimix.cpp 2628-2713), mixer-channel part.
The kind-1 (KSS) paths dispatch to the cartridge and do not touch
`mixer_channels`. -/
def stop_playback (m_stream : Bool) (play_handle : Nat) (vs : List VoiceM) : List VoiceM :=
  if play_handle = 0 then stop_playback_all m_stream vs
  else if get_source_type play_handle = 1 then vs
  else
    let source_id := get_source_id play_handle
    let channel_id := get_channel_id play_handle
    if source_id ≠ 0 then
      if channel_id ≠ 0 then stop_playback_one m_stream source_id channel_id vs
      else stop_playback_by_source m_stream source_id vs
    else vs

/-! ## Per-voice step of MajimixPa::mix (majimix.cpp 3016-3059)

The data flowing through `Sample::read` is irrelevant to the voice lifecycle;
only the returned frame counts matter. `reads k` is the frame count returned by
the `(k+1)`-th `read` call issued for this voice in this packet. -/

/-- Inner refill loop `while(sample_count < requested_sample_count)
sample_count += read(...)`, fuel-indexed: `none` means the fuel was exhausted
with the loop still running. -/
def mix_refill (reads : Nat → Nat) (requested : Nat) : Nat → Nat → Nat → Option Nat
  | _, c, 0 => if requested ≤ c then some c else none
  | k, c, fuel + 1 =>
    if requested ≤ c then some c
    else mix_refill reads requested (k + 1) (c + reads k) fuel

/-- One voice of the `mix` loop: evaluate `deactivate`, read (with the loop
refill), clear `active` when deactivating. The refill fuel `requested` is exact
whenever every read returns at least one frame. -/
def mix_channel_step (reads : Nat → Nat) (requested : Nat) (ch : VoiceM) : Option VoiceM :=
  if ch.active = true then
    if ch.stopped || !ch.hasSample then
      some { ch with stopped := true, active := false }
    else if !ch.paused then
      let c0 := reads 0
      let total := if ch.loop && decide (c0 < requested)
        then mix_refill reads requested 1 c0 requested
        else some c0
      match total with
      | none => none
      | some c =>
        if c < requested then some { ch with stopped := true, active := false }
        else some ch
    else some ch
  else some ch

/-! ## SourcePCM resampling read (majimix.cpp, `SourcePCM::read`)

Fixed-point constants of majimix.cpp. -/

def FP_SHIFT : Nat := 16

/-- C++: `((uint_fast64_t)1 << FP_SHIFT) - 1`. -/
def FP_MASK : Nat := (1 <<< FP_SHIFT) - 1

/-- C++ `in_to_i16_le<2>` (converters.inl):
`static_cast<unsigned char>(data[0]) | (data[1] << 8)`. Bytes are stored as
`Nat`; `data[1]` is a (signed) `char`, so its `int` value is `toSigned8` and the
`<< 8` is the multiplication by `2^8` gcc performs on it; the `|` is 32-bit. -/
def in_to_i16_le2 (pcm : List Nat) (off : Nat) : Int :=
  cpp_or32 ((pcm.getD off 0 % 256 : Nat) : Int) (toSigned8 (pcm.getD (off + 1) 0) * 2 ^ 8)

/-- C++ `((v2 - v) * sample_frac >> FP_SHIFT) + v` (majimix.cpp 738/772/812):
`v2 - v` is an `int` converted to `uint64_t`, the product wraps modulo `2^64`,
the shift is logical, and the assignment to the `int` output truncates to 32
bits. -/
def interp (v v2 : Int) (frac : Nat) : Int :=
  toSigned32 ((((u64 (v2 - v) * frac) % 2 ^ 64) >>> FP_SHIFT) + u64 v)

/-- C++ `SourcePCM::configure` (majimix.cpp 635):
`sample_step = ((uint_fast64_t)sample_rate << FP_SHIFT) / mixer_rate`. -/
def sample_step_of (sample_rate mixer_rate : Nat) : Nat :=
  (sample_rate <<< FP_SHIFT) / mixer_rate

/-- Source-side fields of `SourcePCM` used by the read routines. -/
structure SrcPCM where
  pcm : List Nat
  sample_rate : Nat
  sample_size : Nat
  channels : Nat
  channel_size : Nat
  data_size : Nat
  size : Nat
  sample_step : Nat

/-- Result of one `SourcePCM::read` call: the ints written to the output
buffer, the returned `out_sample_count`, and the updated reference parameters
`sample_idx` / `sample_frac`. -/
structure PCMReadResult where
  out : List Int
  produced : Nat
  sample_idx : Nat
  sample_frac : Nat
deriving DecidableEq

/-- Loop of `SourcePCM::read<true, true>` (stereo source, stereo mixer,
majimix.cpp 725-760), one recursive step per iteration; the interpolation
operands are reloaded from `sample_idx` exactly as the C++ does on advance.
`sample_add` is an `unsigned int`, hence the `% 2^32`. -/
def readSS_loop (s : SrcPCM) (dec : Nat → Int) : Nat → Nat → Nat → PCMReadResult
  | 0, i, frac => ⟨[], 0, i, frac⟩
  | n + 1, i, frac =>
    let off := i * s.sample_size
    let off2 := (off + s.sample_size) % s.data_size
    let vl := dec off
    let vr := dec (off + s.channel_size)
    let vl2 := dec off2
    let vr2 := dec (off2 + s.channel_size)
    let ll := interp vl vl2 frac
    let lr := interp vr vr2 frac
    let frac2 := (frac + s.sample_step) % 2 ^ 64
    let add := (frac2 >>> FP_SHIFT) % 2 ^ 32
    if add ≠ 0 then
      let i2 := i + add
      let frac3 := frac2 &&& FP_MASK
      if s.size ≤ i2 then ⟨[ll, lr], 1, i2, frac3⟩
      else
        let r := readSS_loop s dec n i2 frac3
        ⟨ll :: lr :: r.out, r.produced + 1, r.sample_idx, r.sample_frac⟩
    else
      let r := readSS_loop s dec n i frac2
      ⟨ll :: lr :: r.out, r.produced + 1, r.sample_idx, r.sample_frac⟩

/-- C++ `v += decoder(data + idx); idx += channel_size;` executed `channels`
times (the mono-output branch of `SourcePCM::read`). -/
def sum_channels (dec : Nat → Int) (channel_size off : Nat) : Nat → Int
  | 0 => 0
  | c + 1 => sum_channels dec channel_size off c + dec (off + c * channel_size)

/-- Loop of `SourcePCM::read<STEREO_INPUT, false>` (mono mixer output,
majimix.cpp 795-838): the `channels` input channels are summed, the
interpolated value is shifted right by `channels >> 1`. -/
def readNM_loop (s : SrcPCM) (dec : Nat → Int) : Nat → Nat → Nat → PCMReadResult
  | 0, i, frac => ⟨[], 0, i, frac⟩
  | n + 1, i, frac =>
    let off := i * s.sample_size
    let off2 := (off + s.sample_size) % s.data_size
    let v := sum_channels dec s.channel_size off s.channels
    let w := sum_channels dec s.channel_size off2 s.channels
    let l := interp v w frac
    let outv := sar l (s.channels >>> 1)
    let frac2 := (frac + s.sample_step) % 2 ^ 64
    let add := (frac2 >>> FP_SHIFT) % 2 ^ 32
    if add ≠ 0 then
      let i2 := i + add
      let frac3 := frac2 &&& FP_MASK
      if s.size ≤ i2 then ⟨[outv], 1, i2, frac3⟩
      else
        let r := readNM_loop s dec n i2 frac3
        ⟨outv :: r.out, r.produced + 1, r.sample_idx, r.sample_frac⟩
    else
      let r := readNM_loop s dec n i frac2
      ⟨outv :: r.out, r.produced + 1, r.sample_idx, r.sample_frac⟩

/-- Entry guard of `SourcePCM::read`: nothing is produced once `sample_idx`
reached `size`. -/
def sourcePCM_read_ss (s : SrcPCM) (dec : Nat → Int) (sample_count i frac : Nat) :
    PCMReadResult :=
  if i < s.size then readSS_loop s dec sample_count i frac else ⟨[], 0, i, frac⟩

def sourcePCM_read_nm (s : SrcPCM) (dec : Nat → Int) (sample_count i frac : Nat) :
    PCMReadResult :=
  if i < s.size then readNM_loop s dec sample_count i frac else ⟨[], 0, i, frac⟩

/-- C++ `SamplePCM::read` (majimix.cpp 844-854): on a short read the indices
auto-rewind to 0. -/
def samplePCM_read_ss (s : SrcPCM) (dec : Nat → Int) (sample_count i frac : Nat) :
    PCMReadResult :=
  let r := sourcePCM_read_ss s dec sample_count i frac
  if r.produced < sample_count then { r with sample_idx := 0, sample_frac := 0 } else r

def samplePCM_read_nm (s : SrcPCM) (dec : Nat → Int) (sample_count i frac : Nat) :
    PCMReadResult :=
  let r := sourcePCM_read_nm s dec sample_count i frac
  if r.produced < sample_count then { r with sample_idx := 0, sample_frac := 0 } else r

/-! ## Content path of MajimixPa::mix for one voice (majimix.cpp 3008-3100) -/

/-- C++ `std::transform(first1, last1, first2, first2, std::plus)`: element-wise
sum of a prefix into the destination, the rest of the destination unchanged. -/
def transform_add : List Int → List Int → List Int
  | [], dst => dst
  | _ :: _, [] => []
  | a :: src, d :: dst => (a + d) :: transform_add src dst

/-- C++ master-volume pass (majimix.cpp 3094-3096):
`n = ((int_fast64_t) n * vol) >> 8` — the 64-bit product never overflows for
32-bit `n` and `vol ≤ 255`, and the arithmetic shift is `sar`. -/
def apply_master_volume (vol : Int) (buf : List Int) : List Int :=
  buf.map fun n => sar (n * vol) 8

/-- Content produced by `MajimixPa::mix` for a single active, unstopped,
unpaused voice and no KSS cartridges: zero the 32-bit scratch of
`requested * channels` ints, add the prefix filled by the voice's read, apply
the master volume (the flag/deactivation logic of the same loop is
`mix_channel_step`). -/
def mix_single_voice (requested channels : Nat) (vol : Int) (r : PCMReadResult) : List Int :=
  let mixbuf := List.replicate (requested * channels) (0 : Int)
  let mixbuf2 := transform_add (r.out.take (r.produced * channels)) mixbuf
  apply_master_volume vol mixbuf2

/-- Interleaved decoded frames `i, i+1, ..., i+n-1` of a stereo source: the
reference value for the resampling-free read. -/
def ssFrames (dec : Nat → Int) (sample_size channel_size : Nat) : Nat → Nat → List Int
  | _, 0 => []
  | i, n + 1 =>
    dec (i * sample_size) :: dec (i * sample_size + channel_size) ::
      ssFrames dec sample_size channel_size (i + 1) n

/-- Decoded frames `i, ..., i+n-1` of a mono source. -/
def nmFrames (dec : Nat → Int) (sample_size : Nat) : Nat → Nat → List Int
  | _, 0 => []
  | i, n + 1 => dec (i * sample_size) :: nmFrames dec sample_size (i + 1) n

/-! # Theorems -/

/-! ## Bitwise helper lemmas -/

theorem land_pow_two_sub_one (a i : Nat) : a &&& (2 ^ i - 1) = a % 2 ^ i :=
  Nat.and_pow_two_sub_one_eq_mod a i

theorem lor_mul_pow_add (i a k : Nat) (h : a < 2 ^ i) : (k * 2 ^ i) ||| a = k * 2 ^ i + a := by
  have h1 : 2 ^ i * k + a = 2 ^ i * k ||| a := Nat.mul_add_lt_is_or h k
  calc (k * 2 ^ i) ||| a = (2 ^ i * k) ||| a := by rw [Nat.mul_comm]
    _ = 2 ^ i * k + a := h1.symm
    _ = k * 2 ^ i + a := by rw [Nat.mul_comm]

theorem lor_low_mul_pow (i a k : Nat) (h : a < 2 ^ i) : a ||| (k * 2 ^ i) = k * 2 ^ i + a := by
  rw [Nat.lor_comm]
  exact lor_mul_pow_add i a k h

theorem lor_mul_256_add (a k : Nat) (h : a < 256) : (k * 256) ||| a = k * 256 + a := by
  have h2 : (256 : Nat) = 2 ^ 8 := by norm_num
  rw [h2]
  exact lor_mul_pow_add 8 a k (by omega)

/-- Helper: `cpp_or32` of a low byte and a byte-aligned signed high part is
their exact sum. -/
theorem cpp_or32_byte_add (a : Nat) (s : Int) (ha : a < 256) (hs1 : -128 ≤ s) (hs2 : s < 128) :
    cpp_or32 (a : Int) (s * 256) = s * 256 + a := by
  unfold cpp_or32 u32 toSigned32
  simp only [show (2 : Int) ^ 32 = 4294967296 from by norm_num,
    show (2 : Nat) ^ 32 = 4294967296 from by norm_num,
    show (2 : Nat) ^ 31 = 2147483648 from by norm_num]
  have ha32 : (((a : Int)) % 4294967296).toNat = a := by omega
  have hk : ∃ k : Nat, ((s * 256) % 4294967296).toNat = k * 256 ∧
      ((0 ≤ s ∧ (k : Int) = s) ∨ (s < 0 ∧ (k : Int) = s + 16777216)) := by
    refine ⟨((s % 16777216)).toNat, by omega, by omega⟩
  obtain ⟨k, hk1, hk2⟩ := hk
  rw [ha32, hk1, Nat.lor_comm a (k * 256), lor_mul_256_add a k ha]
  split <;> omega

/-! ## C4: handle codec bijection -/

/-- C4: for `slot < 4096`, `kind < 16`, `voice < 4096`, the composed handle
`get_handle(slot | (kind << 12), voice)` decodes back to `(slot, kind, voice)`
and equals `slot + kind * 2^12 + voice * 2^16` (bits 0-11 / 12-15 / 16-27). -/
theorem handle_codec_bijection (slot kind voice : Nat)
    (h1 : slot < 4096) (h2 : kind < 16) (h3 : voice < 4096) :
    get_untyped_source_id (get_handle (slot ||| (kind <<< 12)) voice) = slot ∧
    get_source_type (get_handle (slot ||| (kind <<< 12)) voice) = kind ∧
    get_channel_id (get_handle (slot ||| (kind <<< 12)) voice) = voice ∧
    get_handle (slot ||| (kind <<< 12)) voice = slot + kind * 2 ^ 12 + voice * 2 ^ 16 := by
  have hsl : slot ||| (kind <<< 12) = kind * 2 ^ 12 + slot := by
    rw [Nat.shiftLeft_eq]
    exact lor_low_mul_pow 12 slot kind (by omega)
  have hsid : kind * 2 ^ 12 + slot < 2 ^ 16 := by omega
  have hhandle : get_handle (slot ||| (kind <<< 12)) voice =
      voice * 2 ^ 16 + (kind * 2 ^ 12 + slot) := by
    unfold get_handle
    rw [hsl]
    have hm1 : (0xFFF : Nat) = 2 ^ 12 - 1 := by norm_num
    have hm2 : (0xFFFF : Nat) = 2 ^ 16 - 1 := by norm_num
    rw [hm1, hm2, land_pow_two_sub_one, land_pow_two_sub_one,
      Nat.mod_eq_of_lt (by omega : voice < 2 ^ 12),
      Nat.mod_eq_of_lt hsid, Nat.shiftLeft_eq]
    exact lor_mul_pow_add 16 _ voice hsid
  refine ⟨?_, ?_, ?_, ?_⟩
  · unfold get_untyped_source_id
    rw [hhandle]
    have hm1 : (0xFFF : Nat) = 2 ^ 12 - 1 := by norm_num
    rw [hm1, land_pow_two_sub_one]
    omega
  · unfold get_source_type
    rw [hhandle, Nat.shiftRight_eq_div_pow]
    have hm1 : (0xF : Nat) = 2 ^ 4 - 1 := by norm_num
    rw [hm1, land_pow_two_sub_one]
    have hdiv : (voice * 2 ^ 16 + (kind * 2 ^ 12 + slot)) / 2 ^ 12 = voice * 2 ^ 4 + kind := by
      omega
    rw [hdiv]
    omega
  · unfold get_channel_id
    rw [hhandle, Nat.shiftRight_eq_div_pow]
    have hm1 : (0xFFF : Nat) = 2 ^ 12 - 1 := by norm_num
    rw [hm1, land_pow_two_sub_one]
    have hdiv : (voice * 2 ^ 16 + (kind * 2 ^ 12 + slot)) / 2 ^ 16 = voice := by
      omega
    rw [hdiv]
    omega
  · rw [hhandle]
    ring

/-- C4 witness: the codec round-trips at `slot = 37`, `kind = 1`, `voice = 5`. -/
theorem handle_codec_bijection_witness :
    get_untyped_source_id (get_handle (37 ||| (1 <<< 12)) 5) = 37 ∧
    get_source_type (get_handle (37 ||| (1 <<< 12)) 5) = 1 ∧
    get_channel_id (get_handle (37 ||| (1 <<< 12)) 5) = 5 ∧
    get_handle (37 ||| (1 <<< 12)) 5 = 37 + 1 * 2 ^ 12 + 5 * 2 ^ 16 :=
  handle_codec_bijection 37 1 5 (by decide) (by decide) (by decide)

/-! ## C9: master volume masking -/

/-- C9: `set_master_volume` stores `v & 0xFF`, i.e. the Euclidean remainder of
`v` modulo 256: the stored value always lies in `[0, 255]`, `v = 256` stores 0
and `v = -1` stores 255 (masking, not clamping). -/
theorem set_master_volume_masks (v : Int) :
    set_master_volume v = v % 256 ∧
    0 ≤ set_master_volume v ∧ set_master_volume v ≤ 255 ∧
    set_master_volume 256 = 0 ∧ set_master_volume (-1) = 255 := by
  have hmain : ∀ w : Int, set_master_volume w = w % 256 := by
    intro w
    unfold set_master_volume u32 toSigned32
    have hm : (0xFF : Nat) = 2 ^ 8 - 1 := by norm_num
    rw [hm, land_pow_two_sub_one]
    simp only [show (2 : Int) ^ 32 = 4294967296 from by norm_num,
      show (2 : Nat) ^ 32 = 4294967296 from by norm_num,
      show (2 : Nat) ^ 31 = 2147483648 from by norm_num,
      show (2 : Nat) ^ 8 = 256 from by norm_num]
    split <;> omega
  refine ⟨hmain v, ?_, ?_, ?_, ?_⟩
  · rw [hmain v]; omega
  · rw [hmain v]; omega
  · rw [hmain 256]; decide
  · rw [hmain (-1)]; decide

/-! ## C8: SamplePCM::seek does not clamp -/

/-- C8 counterexample: over a source of 3 frames, in state `(sample_idx, sample_frac)
= (1, 5)`, `seek(10)` leaves the state at `(1, 5)`: the fractional position is not
reset to 0 and the index is not clamped into `[0, 3)` at `2` — the out-of-range
seek is simply ignored, refuting the claimed clamping postcondition. -/
theorem samplePCM_seek_no_clamp_cex :
    samplePCM_seek true 3 10 (1, 5) = (1, 5) ∧
    (samplePCM_seek true 3 10 (1, 5)).2 ≠ 0 ∧
    samplePCM_seek true 3 10 (1, 5) ≠ (2, 0) := by
  refine ⟨?_, ?_, ?_⟩ <;> decide

/-- C8 amended: `seek(pos)` updates the playback position only when the source is
present and `0 ≤ pos < total_frames`; then the frame index becomes exactly `pos`
and the fractional interpolation position is reset to 0. Any out-of-range `pos`
leaves the whole state unchanged (ignored, not clamped). -/
theorem samplePCM_seek_spec (hasSource : Bool) (size pos : Int) (st : Int × Nat) :
    (hasSource = true → 0 ≤ pos → pos < size → samplePCM_seek hasSource size pos st = (pos, 0)) ∧
    (¬(hasSource = true ∧ pos < size ∧ pos ≥ 0) → samplePCM_seek hasSource size pos st = st) := by
  constructor
  · intro h1 h2 h3
    unfold samplePCM_seek
    rw [if_pos ⟨h1, h3, h2⟩]
  · intro h
    unfold samplePCM_seek
    rw [if_neg h]

/-- C8 witness: in-range seek at `pos = 2` over 3 frames sets `(2, 0)`;
out-of-range seek at `pos = -1` leaves `(1, 5)` unchanged. -/
theorem samplePCM_seek_spec_witness :
    samplePCM_seek true 3 2 (1, 5) = (2, 0) ∧ samplePCM_seek true 3 (-1) (1, 5) = (1, 5) :=
  ⟨(samplePCM_seek_spec true 3 2 (1, 5)).1 (by decide) (by decide) (by decide),
   (samplePCM_seek_spec true 3 (-1) (1, 5)).2 (by decide)⟩

/-! ## C1: BufferedMixer::read is exact and non-blocking -/

theorem bm_read_aux_succ (st : BMState) (remaining fuel : Nat) :
    bm_read_aux st remaining (fuel + 1) =
      if remaining = 0 then ([], st)
      else if st.write_position = st.read_position then (List.replicate remaining 0, st)
      else
        let tk := min (st.buffer_packet_size - st.read_inrange_index) remaining
        let chunk := (List.range tk).map
          (fun i => st.buffer.getD (st.read_position + st.read_inrange_index + i) 0)
        let st2 := if st.buffer_packet_size - st.read_inrange_index - tk ≠ 0
          then { st with read_inrange_index := st.read_inrange_index + tk }
          else { st with read_inrange_index := 0,
                         read_position :=
                           (st.read_position + st.buffer_packet_size) % st.buffer_total_size }
        let r := bm_read_aux st2 (remaining - tk) fuel
        (chunk ++ r.1, r.2) := rfl

theorem bm_read_aux_spec (fuel : Nat) :
    ∀ (st : BMState) (remaining : Nat), remaining ≤ fuel → bm_inv st →
      (bm_read_aux st remaining fuel).1.length = remaining ∧
      bm_inv (bm_read_aux st remaining fuel).2 ∧
      (bm_read_aux st remaining fuel).2.buffer_packet_size = st.buffer_packet_size := by
  induction fuel with
  | zero =>
    intro st remaining h hinv
    have h0 : remaining = 0 := by omega
    subst h0
    exact ⟨rfl, hinv, rfl⟩
  | succ fuel ih =>
    intro st remaining h hinv
    have hinv2 : st.read_inrange_index < st.buffer_packet_size := hinv
    rw [bm_read_aux_succ]
    by_cases h0 : remaining = 0
    · rw [if_pos h0]
      exact ⟨h0.symm, hinv, rfl⟩
    · rw [if_neg h0]
      by_cases hur : st.write_position = st.read_position
      · rw [if_pos hur]
        exact ⟨List.length_replicate _ _, hinv, rfl⟩
      · rw [if_neg hur]
        have htake1 : 1 ≤ min (st.buffer_packet_size - st.read_inrange_index) remaining := by
          omega
        by_cases hbr : st.buffer_packet_size - st.read_inrange_index -
            min (st.buffer_packet_size - st.read_inrange_index) remaining ≠ 0
        · dsimp only
          rw [if_pos hbr]
          have hbr2 : st.read_inrange_index +
              min (st.buffer_packet_size - st.read_inrange_index) remaining <
              st.buffer_packet_size := by omega
          have hrec := ih { st with read_inrange_index := st.read_inrange_index + min (st.buffer_packet_size - st.read_inrange_index) remaining } (remaining - min (st.buffer_packet_size - st.read_inrange_index) remaining) (by omega) hbr2
          refine ⟨?_, hrec.2.1, hrec.2.2⟩
          simp only [List.length_append, List.length_map, List.length_range]
          rw [hrec.1]
          omega
        · dsimp only
          rw [if_neg hbr]
          have hinv3 : (0 : Nat) < st.buffer_packet_size := by omega
          have hrec := ih { st with read_inrange_index := 0, read_position := (st.read_position + st.buffer_packet_size) % st.buffer_total_size } (remaining - min (st.buffer_packet_size - st.read_inrange_index) remaining) (by omega) hinv3
          refine ⟨?_, hrec.2.1, hrec.2.2⟩
          simp only [List.length_append, List.length_map, List.length_range]
          rw [hrec.1]
          omega

/-- C1: for any reachable ring state (reader invariant
`read_inrange_index < buffer_packet_size`, established by `start()` and kept by
every call) and any request of `n` samples, `BufferedMixer::read` returns after
writing exactly `n * sample_size` bytes; when `write_position == read_position`
is observed at entry the whole output is zero-filled and the reader state is
untouched. The loop needs no blocking: each iteration either returns or consumes
at least one byte. -/
theorem bufferedMixer_read_exact (st : BMState) (sample_size n : Nat) (hinv : bm_inv st) :
    (bm_read st sample_size n).1.length = n * sample_size ∧
    (st.write_position = st.read_position →
      (bm_read st sample_size n).1 = List.replicate (n * sample_size) 0 ∧
      (bm_read st sample_size n).2 = st) ∧
    bm_inv (bm_read st sample_size n).2 := by
  unfold bm_read
  refine ⟨(bm_read_aux_spec _ st _ le_rfl hinv).1, ?_, (bm_read_aux_spec _ st _ le_rfl hinv).2.1⟩
  intro hur
  cases hrem : n * sample_size with
  | zero => exact ⟨rfl, rfl⟩
  | succ m =>
    rw [bm_read_aux_succ, if_neg (Nat.succ_ne_zero m), if_pos hur]
    exact ⟨rfl, rfl⟩

/-- C1 witness: a ring of two 2-byte packets holding `[1,2,3,4]`, reader at
packet 0, writer at packet 1: reading 3 bytes yields `[1,2,0]` (one full packet,
then underrun zero-fill), exactly 3 bytes. -/
theorem bufferedMixer_read_exact_witness :
    (bm_read ⟨[1, 2, 3, 4], 2, 4, 0, 0, 2⟩ 1 3).1.length = 3 * 1 ∧
    ((⟨[1, 2, 3, 4], 2, 4, 0, 0, 2⟩ : BMState).write_position =
        (⟨[1, 2, 3, 4], 2, 4, 0, 0, 2⟩ : BMState).read_position →
      (bm_read ⟨[1, 2, 3, 4], 2, 4, 0, 0, 2⟩ 1 3).1 = List.replicate (3 * 1) 0 ∧
      (bm_read ⟨[1, 2, 3, 4], 2, 4, 0, 0, 2⟩ 1 3).2 = ⟨[1, 2, 3, 4], 2, 4, 0, 0, 2⟩) ∧
    bm_inv (bm_read ⟨[1, 2, 3, 4], 2, 4, 0, 0, 2⟩ 1 3).2 :=
  bufferedMixer_read_exact ⟨[1, 2, 3, 4], 2, 4, 0, 0, 2⟩ 1 3 (by show (0 : Nat) < 2; decide)

/-! ## C7: failed source loads -/

/-- C7 counterexample: `add_source_kss` with a KSS image that fails to load
returns `-1`, not the null source handle `0` claimed by the spec (the slot
table is indeed left unchanged). -/
theorem add_source_kss_minus_one_cex :
    add_source_kss false 1 [] = (-1, []) ∧ (add_source_kss false 1 []).1 ≠ 0 := by
  refine ⟨?_, ?_⟩ <;> decide

/-- C7 amended: failed loads publish no partial state — the slot tables are
returned unchanged — and a failed `add_source` returns the null handle 0, but a
failed `add_source_kss` (unloadable image or `lines <= 0`) returns `-1`. -/
theorem add_source_failure_no_partial_state (sources carts : List (Option Unit))
    (is_wave wave_loaded vorbis_ok kss_loaded : Bool) (lines : Int) :
    ((is_wave = true → wave_loaded = false) → (is_wave = false → vorbis_ok = false) →
      add_source is_wave wave_loaded vorbis_ok sources = (0, sources)) ∧
    (lines ≤ 0 ∨ kss_loaded = false →
      add_source_kss kss_loaded lines carts = (-1, carts)) := by
  constructor
  · intro h1 h2
    cases hw : is_wave
    · simp [add_source, add_source_load, hw, h2 hw]
    · simp [add_source, add_source_load, hw, h1 hw]
  · intro h
    rcases h with h | h
    · simp [add_source_kss, if_pos h]
    · by_cases hl : lines ≤ 0
      · simp [add_source_kss, hl]
      · simp [add_source_kss, hl, h]

/-- C7 witness: an unparseable file leaves `[some (), none]` unchanged and
returns 0; `add_source_kss` with `lines = 0` leaves `[none]` unchanged and
returns `-1`. -/
theorem add_source_failure_no_partial_state_witness :
    add_source false false false [some (), none] = (0, [some (), none]) ∧
    add_source_kss true 0 [none] = (-1, [none]) :=
  ⟨(add_source_failure_no_partial_state [some (), none] [none] false false false true 0).1
      (by decide) (by decide),
   (add_source_failure_no_partial_state [some (), none] [none] false false false true 0).2
      (by norm_num)⟩

/-! ## C5: KSS per-packet track promotion and fadeout -/

/-- C5 counterexample: an active, unpaused line with `transition_fadeout = 4`
equal to the packet frame count 4 and `next_track = 0`: the packet zeroes the
counter but does **not** deactivate the line, and a further packet leaves it
active as well — the claimed "deactivated when the counter crosses zero,
including the equality case" is false at equality. -/
theorem kss_fadeout_equal_packet_cex :
    (read_line_convert false 4 ⟨0, true, false, false, true, 1, 0, 4⟩).1.transition_fadeout = 0 ∧
    (read_line_convert false 4 ⟨0, true, false, false, true, 1, 0, 4⟩).1.active = true ∧
    (read_line_convert false 4
      (read_line_convert false 4 ⟨0, true, false, false, true, 1, 0, 4⟩).1).1.active = true := by
  refine ⟨?_, ?_, ?_⟩ <;> decide

/-- C5 amended: for an active, unpaused line, (1) `next_track != 0` with
`transition_fadeout == 0` promotes `next_track` to `current_track` and resets
the engine to that track; (2) a positive fadeout strictly smaller than the
packet frame count is zeroed and deactivates the line exactly when
`next_track == 0`; (3) a fadeout of at least the packet frame count — including
exact equality — is merely decremented by the packet frame count and the line
is deactivated in that packet only by autostop. -/
theorem kss_read_line_spec (stop_flag : Bool) (requested : Int) (l : KSSLineM)
    (ha : l.active = true) (hp : l.pause = false) :
    (l.next_track ≠ 0 → l.transition_fadeout = 0 →
      (read_line_convert stop_flag requested l).1.current_track = l.next_track ∧
      (read_line_convert stop_flag requested l).1.next_track = 0 ∧
      (read_line_convert stop_flag requested l).2.1 = some l.next_track) ∧
    (l.transition_fadeout ≠ 0 → l.transition_fadeout < requested →
      (read_line_convert stop_flag requested l).1.transition_fadeout = 0 ∧
      ((read_line_convert stop_flag requested l).1.active = false ↔ l.next_track = 0)) ∧
    (l.transition_fadeout ≠ 0 → requested ≤ l.transition_fadeout →
      (read_line_convert stop_flag requested l).1.transition_fadeout =
        l.transition_fadeout - requested ∧
      ((read_line_convert stop_flag requested l).1.active = false ↔
        (l.autostop = true ∧ stop_flag = true))) := by
  refine ⟨?_, ?_, ?_⟩
  · intro h1 h2
    by_cases hd : (l.autostop && stop_flag) = true <;>
      simp [read_line_convert, ha, hp, h1, h2, hd]
  · intro h1 h2
    have h3 : ¬(l.next_track ≠ 0 ∧ l.transition_fadeout = 0) := by tauto
    by_cases hn : l.next_track = 0 <;>
      simp [read_line_convert, ha, hp, h1, h2, h3, hn]
  · intro h1 h2
    have h3 : ¬(l.next_track ≠ 0 ∧ l.transition_fadeout = 0) := by tauto
    have h4 : ¬(l.transition_fadeout < requested) := by omega
    by_cases hd : (l.autostop && stop_flag) = true
    · rcases Bool.and_eq_true_iff.mp hd with ⟨hd1, hd2⟩
      simp [read_line_convert, ha, hp, h1, h3, h4, hd, hd1, hd2]
    · simp [read_line_convert, ha, hp, h1, h3, h4, hd]
      intro hcon
      simp [hcon] at hd
      exact hd

/-- C5 witness: promotion at `next_track = 2, fadeout = 0`; deactivation at
`fadeout = 3 < 4` with `next_track = 0`; plain decrement at `fadeout = 9 ≥ 4`. -/
theorem kss_read_line_spec_witness :
    ((read_line_convert false 4 ⟨0, true, false, false, true, 1, 2, 0⟩).1.current_track = 2 ∧
     (read_line_convert false 4 ⟨0, true, false, false, true, 1, 2, 0⟩).1.next_track = 0 ∧
     (read_line_convert false 4 ⟨0, true, false, false, true, 1, 2, 0⟩).2.1 = some 2) ∧
    ((read_line_convert false 4 ⟨0, true, false, false, true, 1, 0, 3⟩).1.transition_fadeout = 0 ∧
     ((read_line_convert false 4 ⟨0, true, false, false, true, 1, 0, 3⟩).1.active = false ↔
       (0 : Nat) = 0)) ∧
    ((read_line_convert false 4 ⟨0, true, false, false, true, 1, 0, 9⟩).1.transition_fadeout =
       9 - 4 ∧
     ((read_line_convert false 4 ⟨0, true, false, false, true, 1, 0, 9⟩).1.active = false ↔
       (false = true ∧ false = true))) :=
  ⟨(kss_read_line_spec false 4 ⟨0, true, false, false, true, 1, 2, 0⟩ rfl rfl).1
      (by decide) (by decide),
   (kss_read_line_spec false 4 ⟨0, true, false, false, true, 1, 0, 3⟩ rfl rfl).2.1
      (by decide) (by decide),
   (kss_read_line_spec false 4 ⟨0, true, false, false, true, 1, 0, 9⟩ rfl rfl).2.2
      (by decide) (by decide)⟩

/-! ## C6: force_line selection -/

/-- C6 counterexample: a freshly constructed cartridge (one line, `forcable =
true`, `id = 0`, counter `m_next_mixer = 0`): `force_line` returns 0 and
activates nothing although a forcable line exists, because the scan only
accepts `id < m_next_mixer` strictly. -/
theorem force_line_fresh_cex :
    force_line 5 true true ⟨[⟨0, false, false, false, true, 0, 0, 0⟩], 0, 44100⟩ =
      (0, ⟨[⟨0, false, false, false, true, 0, 0, 0⟩], 0, 44100⟩) ∧
    (⟨0, false, false, false, true, 0, 0, 0⟩ : KSSLineM).forcable = true := by
  refine ⟨?_, ?_⟩ <;> decide

theorem force_line_scan_no (ls : List KSSLineM) : ∀ (base : Nat) (mn : Int) (idmin : Nat),
    (∀ l ∈ ls, ¬(l.forcable = true ∧ l.id < mn)) →
    force_line_scan ls base mn idmin = (mn, idmin) := by
  induction ls with
  | nil => intro base mn idmin _; rfl
  | cons l ls ih =>
    intro base mn idmin h
    have hl := h l (List.mem_cons_self l ls)
    by_cases hf : l.forcable = true
    · have hid : ¬(l.id < mn) := fun hi => hl ⟨hf, hi⟩
      simp only [force_line_scan, if_pos hf, if_neg hid]
      exact ih _ _ _ (fun x hx => h x (List.mem_cons_of_mem l hx))
    · simp only [force_line_scan, if_neg hf]
      exact ih _ _ _ (fun x hx => h x (List.mem_cons_of_mem l hx))

theorem force_line_scan_found (ls : List KSSLineM) : ∀ (base : Nat) (mn : Int) (idmin : Nat),
    (∃ l ∈ ls, l.forcable = true ∧ l.id < mn) →
    ∃ j, ∃ hj : j < ls.length,
      force_line_scan ls base mn idmin = ((ls.get ⟨j, hj⟩).id, base + j + 1) ∧
      (ls.get ⟨j, hj⟩).forcable = true ∧ (ls.get ⟨j, hj⟩).id < mn ∧
      (∀ l ∈ ls, l.forcable = true → (ls.get ⟨j, hj⟩).id ≤ l.id) := by
  induction ls with
  | nil =>
    intro base mn idmin h
    simp at h
  | cons l ls ih =>
    intro base mn idmin h
    by_cases hf : l.forcable = true
    · by_cases hid : l.id < mn
      · by_cases hrest : ∃ x ∈ ls, x.forcable = true ∧ x.id < l.id
        · obtain ⟨j, hj, heq, hforc, hlt, hmin⟩ := ih (base + 1) l.id (base + 1) hrest
          have hj2 : j + 1 < (l :: ls).length := Nat.succ_lt_succ hj
          have hgs : (l :: ls).get ⟨j + 1, hj2⟩ = ls.get ⟨j, hj⟩ := rfl
          refine ⟨j + 1, hj2, ?_, ?_, ?_, ?_⟩
          · simp only [force_line_scan, if_pos hf, if_pos hid, heq, hgs, Prod.mk.injEq]
            exact ⟨by trivial, by omega⟩
          · rw [hgs]; exact hforc
          · rw [hgs]; omega
          · intro x hx hxf
            rw [hgs]
            rcases List.mem_cons.mp hx with rfl | hx2
            · omega
            · exact hmin x hx2 hxf
        · push_neg at hrest
          have hno : ∀ x ∈ ls, ¬(x.forcable = true ∧ x.id < l.id) := by
            intro x hx hcon
            have := hrest x hx hcon.1
            omega
          have heq := force_line_scan_no ls (base + 1) l.id (base + 1) hno
          have hj2 : 0 < (l :: ls).length := Nat.succ_pos _
          refine ⟨0, hj2, ?_, hf, hid, ?_⟩
          · simp only [force_line_scan, if_pos hf, if_pos hid, heq]
            rfl
          · intro x hx hxf
            rcases List.mem_cons.mp hx with rfl | hx2
            · exact le_of_eq (by rfl)
            · have := hrest x hx2 hxf
              have hg0 : ((l :: ls).get ⟨0, hj2⟩) = l := rfl
              rw [hg0]
              omega
      · have hrest : ∃ x ∈ ls, x.forcable = true ∧ x.id < mn := by
          obtain ⟨x, hx, hxp⟩ := h
          rcases List.mem_cons.mp hx with rfl | hx2
          · exact absurd hxp.2 hid
          · exact ⟨x, hx2, hxp⟩
        obtain ⟨j, hj, heq, hforc, hlt, hmin⟩ := ih (base + 1) mn idmin hrest
        have hj2 : j + 1 < (l :: ls).length := Nat.succ_lt_succ hj
        have hgs : (l :: ls).get ⟨j + 1, hj2⟩ = ls.get ⟨j, hj⟩ := rfl
        refine ⟨j + 1, hj2, ?_, ?_, ?_, ?_⟩
        · simp only [force_line_scan, if_pos hf, if_neg hid, heq, hgs, Prod.mk.injEq]
          exact ⟨by trivial, by omega⟩
        · rw [hgs]; exact hforc
        · rw [hgs]; exact hlt
        · intro x hx hxf
          rw [hgs]
          rcases List.mem_cons.mp hx with rfl | hx2
          · omega
          · exact hmin x hx2 hxf
    · have hrest : ∃ x ∈ ls, x.forcable = true ∧ x.id < mn := by
        obtain ⟨x, hx, hxp⟩ := h
        rcases List.mem_cons.mp hx with rfl | hx2
        · exact absurd hxp.1 hf
        · exact ⟨x, hx2, hxp⟩
      obtain ⟨j, hj, heq, hforc, hlt, hmin⟩ := ih (base + 1) mn idmin hrest
      have hj2 : j + 1 < (l :: ls).length := Nat.succ_lt_succ hj
      have hgs : (l :: ls).get ⟨j + 1, hj2⟩ = ls.get ⟨j, hj⟩ := rfl
      refine ⟨j + 1, hj2, ?_, ?_, ?_, ?_⟩
      · simp only [force_line_scan, if_neg hf, heq, hgs, Prod.mk.injEq]
        exact ⟨by trivial, by omega⟩
      · rw [hgs]; exact hforc
      · rw [hgs]; exact hlt
      · intro x hx hxf
        rw [hgs]
        rcases List.mem_cons.mp hx with rfl | hx2
        · exact absurd hxf hf
        · exact hmin x hx2 hxf

/-- C6 amended: `force_line` selects among the lines with `forcable = true`
**whose `id` is strictly below the activation counter `m_next_mixer`** the one
with the smallest id, activates it (`next_track = track`, `pause = false`,
`id = next_id`, `transition_fadeout = 0`, `active = true` last) and returns its
1-based index, incrementing the counter; when no such line exists — in
particular on a fresh cartridge whose forcable lines still carry `id = 0 =
m_next_mixer` — it returns 0 and modifies nothing. -/
theorem force_line_spec (track : Nat) (autostop forcable : Bool) (c : CartKSS) :
    ((∀ l ∈ c.lines, ¬(l.forcable = true ∧ l.id < c.m_next_mixer)) →
      force_line track autostop forcable c = (0, c)) ∧
    ((∃ l ∈ c.lines, l.forcable = true ∧ l.id < c.m_next_mixer) →
      ∃ j, ∃ hj : j < c.lines.length,
        (force_line track autostop forcable c).1 = j + 1 ∧
        (c.lines.get ⟨j, hj⟩).forcable = true ∧
        (c.lines.get ⟨j, hj⟩).id < c.m_next_mixer ∧
        (∀ l ∈ c.lines, l.forcable = true → (c.lines.get ⟨j, hj⟩).id ≤ l.id) ∧
        (force_line track autostop forcable c).2 =
          { c with
              lines := c.lines.set j
                (kss_activate c.m_rate c.m_next_mixer track autostop forcable 0
                  (c.lines.get ⟨j, hj⟩)),
              m_next_mixer := c.m_next_mixer + 1 }) := by
  constructor
  · intro h
    unfold force_line
    rw [force_line_scan_no c.lines 0 c.m_next_mixer 0 h]
    simp
  · intro h
    obtain ⟨j, hj, heq, hforc, hlt, hmin⟩ := force_line_scan_found c.lines 0 c.m_next_mixer 0 h
    unfold force_line
    rw [heq]
    dsimp only
    rw [if_pos (by omega : 0 + j + 1 ≠ 0)]
    have hidx : 0 + j + 1 - 1 = j := by omega
    rw [hidx]
    have hget : c.lines[j]? = some (c.lines.get ⟨j, hj⟩) := by
      rw [List.getElem?_eq_getElem hj]
      rfl
    rw [hget]
    dsimp only
    exact ⟨j, hj, by omega, hforc, hlt, hmin, rfl⟩

/-- C6 witness: a two-line cartridge where line 2 (`id = 0`) is older than line
1 (`id = 1`), both forcable, counter at 2: `force_line` picks line 2 (index 2),
stamps it with `id = 2` and bumps the counter to 3; and on a cartridge with no
admissible line, nothing changes. -/
theorem force_line_spec_witness :
    force_line 7 false true ⟨[⟨1, true, false, false, true, 3, 0, 0⟩], 0, 44100⟩ =
      (0, ⟨[⟨1, true, false, false, true, 3, 0, 0⟩], 0, 44100⟩) ∧
    (∃ j, ∃ hj : j < ([⟨1, true, false, true, true, 3, 0, 0⟩,
        ⟨0, true, false, false, true, 4, 0, 0⟩] : List KSSLineM).length,
      (force_line 7 false true ⟨[⟨1, true, false, true, true, 3, 0, 0⟩,
          ⟨0, true, false, false, true, 4, 0, 0⟩], 2, 44100⟩).1 = j + 1 ∧
      (([⟨1, true, false, true, true, 3, 0, 0⟩,
          ⟨0, true, false, false, true, 4, 0, 0⟩] : List KSSLineM).get ⟨j, hj⟩).forcable = true ∧
      (([⟨1, true, false, true, true, 3, 0, 0⟩,
          ⟨0, true, false, false, true, 4, 0, 0⟩] : List KSSLineM).get ⟨j, hj⟩).id < 2 ∧
      (∀ l ∈ ([⟨1, true, false, true, true, 3, 0, 0⟩,
          ⟨0, true, false, false, true, 4, 0, 0⟩] : List KSSLineM), l.forcable = true →
        (([⟨1, true, false, true, true, 3, 0, 0⟩,
            ⟨0, true, false, false, true, 4, 0, 0⟩] : List KSSLineM).get ⟨j, hj⟩).id ≤ l.id) ∧
      (force_line 7 false true ⟨[⟨1, true, false, true, true, 3, 0, 0⟩,
          ⟨0, true, false, false, true, 4, 0, 0⟩], 2, 44100⟩).2 =
        { lines := ([⟨1, true, false, true, true, 3, 0, 0⟩,
            ⟨0, true, false, false, true, 4, 0, 0⟩] : List KSSLineM).set j
              (kss_activate 44100 2 7 false true 0
                (([⟨1, true, false, true, true, 3, 0, 0⟩,
                    ⟨0, true, false, false, true, 4, 0, 0⟩] : List KSSLineM).get ⟨j, hj⟩)),
          m_next_mixer := 3, m_rate := 44100 }) :=
  ⟨(force_line_spec 7 false true ⟨[⟨1, true, false, false, true, 3, 0, 0⟩], 0, 44100⟩).1
      (by decide),
   (force_line_spec 7 false true ⟨[⟨1, true, false, true, true, 3, 0, 0⟩,
        ⟨0, true, false, false, true, 4, 0, 0⟩], 2, 44100⟩).2
      ⟨⟨0, true, false, false, true, 4, 0, 0⟩, by decide, by decide, by decide⟩⟩

/-! ## Voice-lifecycle helper lemmas (C3, C10) -/

theorem getD_map_active (f : VoiceM → VoiceM) (hf : ∀ ch, (f ch).active = ch.active) :
    ∀ (vs : List VoiceM) (i : Nat) (vd : VoiceM),
      ((vs.map f).getD i vd).active = (vs.getD i vd).active := by
  intro vs
  induction vs with
  | nil => intro i vd; rfl
  | cons x xs ih =>
    intro i vd
    cases i with
    | zero => exact hf x
    | succ n => exact ih n vd

theorem getD_set_active :
    ∀ (vs : List VoiceM) (j : Nat) (y : VoiceM),
      (∀ hj : j < vs.length, y.active = (vs.get ⟨j, hj⟩).active) →
      ∀ (i : Nat) (vd : VoiceM), ((vs.set j y).getD i vd).active = (vs.getD i vd).active := by
  intro vs
  induction vs with
  | nil => intro j y _ i vd; rfl
  | cons x xs ih =>
    intro j y hy i vd
    cases j with
    | zero =>
      cases i with
      | zero => exact hy (Nat.succ_pos _)
      | succ n => rfl
    | succ m =>
      cases i with
      | zero => rfl
      | succ n => exact ih m y (fun hj => hy (Nat.succ_lt_succ hj)) n vd

theorem stop_voice_active_open (ch : VoiceM) : (stop_voice true ch).active = ch.active := rfl

theorem mix_refill_ge (reads : Nat → Nat) (requested : Nat) (hr : ∀ k, 1 ≤ reads k) :
    ∀ (fuel k c : Nat), requested ≤ c + fuel →
      ∃ c2, mix_refill reads requested k c fuel = some c2 ∧ requested ≤ c2 := by
  intro fuel
  induction fuel with
  | zero =>
    intro k c h
    have hc : requested ≤ c := by omega
    exact ⟨c, by simp [mix_refill, hc], hc⟩
  | succ fuel ih =>
    intro k c h
    by_cases hc : requested ≤ c
    · exact ⟨c, by simp [mix_refill, hc], hc⟩
    · have h1 := hr k
      obtain ⟨c2, heq, hge⟩ := ih (k + 1) (c + reads k) (by omega)
      refine ⟨c2, ?_, hge⟩
      rw [show mix_refill reads requested k c (fuel + 1) =
        mix_refill reads requested (k + 1) (c + reads k) fuel from by simp [mix_refill, hc]]
      exact heq

/-- Helper: under the hypothesis that every read returns at least one frame,
the per-voice mix step is total and clears `active` exactly on `stopped`, a
missing sample, or a short non-looping read. -/
theorem mix_channel_step_spec (reads : Nat → Nat) (requested : Nat) (ch : VoiceM)
    (hr : ∀ k, 1 ≤ reads k) :
    ∃ ch2, mix_channel_step reads requested ch = some ch2 ∧
      (ch.active = true →
        (ch2.active = false ↔
          (ch.stopped = true ∨ ch.hasSample = false ∨
            (ch.paused = false ∧ ch.loop = false ∧ reads 0 < requested)))) := by
  by_cases ha : ch.active = true
  · by_cases hs : (ch.stopped || !ch.hasSample) = true
    · refine ⟨{ ch with stopped := true, active := false }, ?_, ?_⟩
      · simp [mix_channel_step, ha, hs]
      · intro _
        simp only [Bool.or_eq_true, Bool.not_eq_true'] at hs
        simp
        rcases hs with hs | hs
        · exact Or.inl hs
        · exact Or.inr (Or.inl hs)
    · simp only [Bool.or_eq_true, Bool.not_eq_true'] at hs
      push_neg at hs
      obtain ⟨hs1, hs2⟩ := hs
      have hs1b : ch.stopped = false := by
        cases hcs : ch.stopped
        · rfl
        · exact absurd hcs hs1
      have hs2b : ch.hasSample = true := by
        cases hcs : ch.hasSample
        · exact absurd hcs hs2
        · rfl
      by_cases hp : ch.paused = true
      · refine ⟨ch, ?_, ?_⟩
        · simp [mix_channel_step, ha, hs1b, hs2b, hp]
        · intro _
          simp [ha, hs1b, hs2b, hp]
      · have hpb : ch.paused = false := by
          cases hcp : ch.paused
          · rfl
          · exact absurd hcp hp
        by_cases hls : (ch.loop && decide (reads 0 < requested)) = true
        · obtain ⟨hl, hshort⟩ := Bool.and_eq_true_iff.mp hls
          obtain ⟨c2, heq, hge⟩ :=
            mix_refill_ge reads requested hr requested 1 (reads 0) (by omega)
          refine ⟨ch, ?_, ?_⟩
          · simp [mix_channel_step, ha, hs1b, hs2b, hpb, hls, heq, Nat.not_lt.mpr hge]
          · intro _
            simp [ha, hs1b, hs2b, hpb, hl]
        · by_cases hshort : reads 0 < requested
          · have hl : ch.loop = false := by
              cases hcl : ch.loop
              · rfl
              · exact absurd (by simp [hcl, hshort]) hls
            refine ⟨{ ch with stopped := true, active := false }, ?_, ?_⟩
            · simp [mix_channel_step, ha, hs1b, hs2b, hpb, hls, hshort, hl]
            · intro _
              simp [hpb, hl, hshort]
          · refine ⟨ch, ?_, ?_⟩
            · simp [mix_channel_step, ha, hs1b, hs2b, hpb, hls, hshort]
            · intro _
              simp [ha, hs1b, hs2b, hshort]
  · refine ⟨ch, ?_, ?_⟩
    · simp [mix_channel_step, ha]
    · intro hcon
      exact absurd hcon ha

/-! ## C3: only the producer clears `active` while the stream runs -/

/-- C3: with the stream open (`m_stream = true`) no `stop_playback` path changes
any voice's `active` flag; with the stream closed the stop-all form clears
`active` directly; the kind-0/voice>0 form mutates exactly the addressed voice
and only when it is active with a matching `sid` (otherwise nothing changes);
and the producer-side `mix` step clears `active` exactly on observing `stopped`,
a missing sample, or a short non-looping read. -/
theorem stop_playback_active_discipline
    (vs : List VoiceM) (vd : VoiceM) (reads : Nat → Nat) (requested : Nat) :
    (∀ (play_handle i : Nat),
      ((stop_playback true play_handle vs).getD i vd).active = (vs.getD i vd).active) ∧
    (∀ i, i < vs.length → ((stop_playback false 0 vs).getD i vd).active = false) ∧
    (∀ (play_handle : Nat) (m_stream : Bool), play_handle ≠ 0 →
      get_source_type play_handle = 0 →
      get_source_id play_handle ≠ 0 → get_channel_id play_handle ≠ 0 →
      ∀ hc : get_channel_id play_handle - 1 < vs.length,
        (((vs.get ⟨get_channel_id play_handle - 1, hc⟩).active = true ∧
            (vs.get ⟨get_channel_id play_handle - 1, hc⟩).sid = get_source_id play_handle) →
          stop_playback m_stream play_handle vs =
            vs.set (get_channel_id play_handle - 1)
              (stop_voice m_stream (vs.get ⟨get_channel_id play_handle - 1, hc⟩))) ∧
        (¬((vs.get ⟨get_channel_id play_handle - 1, hc⟩).active = true ∧
            (vs.get ⟨get_channel_id play_handle - 1, hc⟩).sid = get_source_id play_handle) →
          stop_playback m_stream play_handle vs = vs)) ∧
    (∀ ch, (∀ k, 1 ≤ reads k) →
      ∃ ch2, mix_channel_step reads requested ch = some ch2 ∧
        (ch.active = true →
          (ch2.active = false ↔
            (ch.stopped = true ∨ ch.hasSample = false ∨
              (ch.paused = false ∧ ch.loop = false ∧ reads 0 < requested))))) := by
  refine ⟨?_, ?_, ?_, ?_⟩
  · intro play_handle i
    unfold stop_playback
    by_cases h0 : play_handle = 0
    · rw [if_pos h0]
      apply getD_map_active
      intro ch
      by_cases hact : ch.active = true <;> simp [hact]
    · rw [if_neg h0]
      by_cases h1 : get_source_type play_handle = 1
      · rw [if_pos h1]
      · rw [if_neg h1]
        dsimp only
        by_cases hsid : get_source_id play_handle ≠ 0
        · rw [if_pos hsid]
          by_cases hcid : get_channel_id play_handle ≠ 0
          · rw [if_pos hcid]
            unfold stop_playback_one
            rcases hm : vs[get_channel_id play_handle - 1]? with _ | ch
            · rfl
            · obtain ⟨hj, hch⟩ := List.getElem?_eq_some_iff.mp hm
              dsimp only
              by_cases hcond : ch.active = true ∧ ch.sid = get_source_id play_handle
              · rw [if_pos hcond]
                apply getD_set_active
                intro hj2
                rw [stop_voice_active_open]
                rw [← hch]
                rfl
              · rw [if_neg hcond]
          · rw [if_neg hcid]
            apply getD_map_active
            intro ch
            by_cases hcond : ch.active = true ∧ ch.sid = get_source_id play_handle
            · rw [if_pos hcond, stop_voice_active_open]
            · rw [if_neg hcond]
        · rw [if_neg hsid]
  · intro i hi
    unfold stop_playback
    rw [if_pos rfl]
    unfold stop_playback_all
    induction vs generalizing i with
    | nil => simp at hi
    | cons x xs ih =>
      cases i with
      | zero =>
        by_cases hact : x.active = true
        · simp [hact]
        · simp only [List.map_cons, List.getD_cons_zero, if_neg hact]
          simp only [Bool.not_eq_true] at hact
          exact hact
      | succ n => exact ih n (by simpa using hi)
  · intro play_handle m_stream h0 htype hsid hcid hc
    have hdispatch : stop_playback m_stream play_handle vs =
        stop_playback_one m_stream (get_source_id play_handle)
          (get_channel_id play_handle) vs := by
      unfold stop_playback
      rw [if_neg h0, if_neg (by rw [htype]; omega)]
      dsimp only
      rw [if_pos hsid, if_pos hcid]
    have hm : vs[get_channel_id play_handle - 1]? =
        some (vs.get ⟨get_channel_id play_handle - 1, hc⟩) := by
      rw [List.getElem?_eq_getElem hc]
      rfl
    constructor
    · intro hcond
      rw [hdispatch]
      unfold stop_playback_one
      rw [hm]
      dsimp only
      rw [if_pos hcond]
    · intro hcond
      rw [hdispatch]
      unfold stop_playback_one
      rw [hm]
      dsimp only
      rw [if_neg hcond]
  · intro ch hr
    exact mix_channel_step_spec reads requested ch hr

/-- C3 witness: a concrete two-voice table; stopping voice 1 of source 3 with
the stream open (handle 65539) sets only `stopped` on that voice; the stop-all
with the stream closed clears `active`; mix deactivates a stopped voice. -/
theorem stop_playback_active_discipline_witness :
    ((stop_playback true 65539
        [⟨true, false, false, false, true, 3⟩, ⟨true, false, false, false, true, 4⟩]).getD 0
        ⟨false, false, false, false, false, 0⟩).active =
      (([⟨true, false, false, false, true, 3⟩, ⟨true, false, false, false, true, 4⟩] :
        List VoiceM).getD 0 ⟨false, false, false, false, false, 0⟩).active ∧
    ((stop_playback false 0
        [⟨true, false, false, false, true, 3⟩, ⟨true, false, false, false, true, 4⟩]).getD 0
        ⟨false, false, false, false, false, 0⟩).active = false ∧
    stop_playback true 65539
        [⟨true, false, false, false, true, 3⟩, ⟨true, false, false, false, true, 4⟩] =
      ([⟨true, false, false, false, true, 3⟩, ⟨true, false, false, false, true, 4⟩] :
        List VoiceM).set 0
        (stop_voice true (([⟨true, false, false, false, true, 3⟩,
          ⟨true, false, false, false, true, 4⟩] : List VoiceM).get ⟨0, by decide⟩)) ∧
    ∃ ch2, mix_channel_step (fun _ => 1) 4 ⟨true, true, false, false, true, 3⟩ = some ch2 ∧
      ((⟨true, true, false, false, true, 3⟩ : VoiceM).active = true →
        (ch2.active = false ↔
          ((⟨true, true, false, false, true, 3⟩ : VoiceM).stopped = true ∨
            (⟨true, true, false, false, true, 3⟩ : VoiceM).hasSample = false ∨
            ((⟨true, true, false, false, true, 3⟩ : VoiceM).paused = false ∧
              (⟨true, true, false, false, true, 3⟩ : VoiceM).loop = false ∧
              (fun _ : Nat => 1) 0 < 4)))) :=
  ⟨(stop_playback_active_discipline
      [⟨true, false, false, false, true, 3⟩, ⟨true, false, false, false, true, 4⟩]
      ⟨false, false, false, false, false, 0⟩ (fun _ => 1) 4).1 65539 0,
   (stop_playback_active_discipline
      [⟨true, false, false, false, true, 3⟩, ⟨true, false, false, false, true, 4⟩]
      ⟨false, false, false, false, false, 0⟩ (fun _ => 1) 4).2.1 0 (by decide),
   ((stop_playback_active_discipline
      [⟨true, false, false, false, true, 3⟩, ⟨true, false, false, false, true, 4⟩]
      ⟨false, false, false, false, false, 0⟩ (fun _ => 1) 4).2.2.1 65539 true
      (by decide) (by decide) (by decide) (by decide) (by decide)).1 (by decide),
   (stop_playback_active_discipline
      [⟨true, false, false, false, true, 3⟩, ⟨true, false, false, false, true, 4⟩]
      ⟨false, false, false, false, false, 0⟩ (fun _ => 1) 4).2.2.2
      ⟨true, true, false, false, true, 3⟩ (fun _ => Nat.le_refl 1)⟩

/-! ## C10: termination of the refill loop of mix -/

/-- C10: the refill loop of `MajimixPa::mix` terminates — with any fuel at
least `requested` — exactly under the precondition that every `Sample::read`
call returns at least one frame: (i) under that precondition the loop reaches
`sample_count ≥ requested`; (ii) one iteration strictly decreases the remaining
frame count iff its read returned at least one frame; (iii) with reads
returning 0 the loop runs out of any fuel; (iv) under the precondition the
whole per-voice mix step is total. -/
theorem mix_refill_termination (reads : Nat → Nat) (requested : Nat) :
    ((∀ k, 1 ≤ reads k) → ∀ (k0 c0 : Nat),
      ∃ c2, mix_refill reads requested k0 c0 requested = some c2 ∧ requested ≤ c2) ∧
    (∀ (k c fuel : Nat), ¬(requested ≤ c) →
      mix_refill reads requested k c (fuel + 1) =
        mix_refill reads requested (k + 1) (c + reads k) fuel ∧
      ((requested - (c + reads k) < requested - c) ↔ 1 ≤ reads k)) ∧
    ((∀ k, reads k = 0) → ∀ (k0 c0 fuel : Nat), c0 < requested →
      mix_refill reads requested k0 c0 fuel = none) ∧
    ((∀ k, 1 ≤ reads k) → ∀ ch : VoiceM,
      (mix_channel_step reads requested ch).isSome = true) := by
  refine ⟨?_, ?_, ?_, ?_⟩
  · intro hr k0 c0
    exact mix_refill_ge reads requested hr requested k0 c0 (by omega)
  · intro k c fuel hc
    constructor
    · simp [mix_refill, hc]
    · omega
  · intro hz k0 c0 fuel
    induction fuel generalizing k0 c0 with
    | zero =>
      intro hlt
      simp [mix_refill, Nat.not_le.mpr hlt]
    | succ fuel ih =>
      intro hlt
      rw [show mix_refill reads requested k0 c0 (fuel + 1) =
        mix_refill reads requested (k0 + 1) (c0 + reads k0) fuel from by
          simp [mix_refill, Nat.not_le.mpr hlt]]
      rw [hz k0]
      exact ih (k0 + 1) c0 hlt
  · intro hr ch
    obtain ⟨ch2, heq, _⟩ := mix_channel_step_spec reads requested ch hr
    rw [heq]
    rfl

/-- C10 witness: with every read returning 1 frame, the refill loop for 3
frames from 1 completes; a single iteration with a 1-frame read strictly
decreases the remainder; zero-reads exhaust the fuel; the step of a looping
voice is total. -/
theorem mix_refill_termination_witness :
    (∃ c2, mix_refill (fun _ => 1) 3 1 1 3 = some c2 ∧ 3 ≤ c2) ∧
    (mix_refill (fun _ => 1) 3 1 1 (2 + 1) = mix_refill (fun _ => 1) 3 (1 + 1) (1 + 1) 2 ∧
      ((3 - (1 + 1) < 3 - 1) ↔ 1 ≤ 1)) ∧
    mix_refill (fun _ => 0) 3 1 1 100 = none ∧
    (mix_channel_step (fun _ => 1) 3 ⟨true, false, false, true, true, 2⟩).isSome = true :=
  ⟨(mix_refill_termination (fun _ => 1) 3).1 (fun _ => Nat.le_refl 1) 1 1,
   (mix_refill_termination (fun _ => 1) 3).2.1 1 1 2 (by decide),
   (mix_refill_termination (fun _ => 0) 3).2.2.1 (fun _ => rfl) 1 1 100 (by decide),
   (mix_refill_termination (fun _ => 1) 3).2.2.2 (fun _ => Nat.le_refl 1)
     ⟨true, false, false, true, true, 2⟩⟩

/-! ## C2 helper lemmas: decoder, interpolation, volume -/

theorem toSigned8_bounds (b : Nat) : -128 ≤ toSigned8 b ∧ toSigned8 b < 128 := by
  unfold toSigned8
  simp only [show (2 : Nat) ^ 8 = 256 from by norm_num,
    show (2 : Nat) ^ 7 = 128 from by norm_num,
    show (2 : Int) ^ 8 = 256 from by norm_num]
  split <;> omega

theorem in_to_i16_le2_eq (pcm : List Nat) (off : Nat) :
    in_to_i16_le2 pcm off =
      toSigned8 (pcm.getD (off + 1) 0) * 256 + ((pcm.getD off 0 % 256 : Nat) : Int) := by
  unfold in_to_i16_le2
  have hb := toSigned8_bounds (pcm.getD (off + 1) 0)
  have h := cpp_or32_byte_add (pcm.getD off 0 % 256) (toSigned8 (pcm.getD (off + 1) 0))
    (Nat.mod_lt _ (by norm_num)) hb.1 hb.2
  rw [show ((2 : Int) ^ 8) = 256 from by norm_num]
  exact h

theorem in_to_i16_le2_bounds (pcm : List Nat) (off : Nat) :
    -32768 ≤ in_to_i16_le2 pcm off ∧ in_to_i16_le2 pcm off < 32768 := by
  rw [in_to_i16_le2_eq]
  have hb := toSigned8_bounds (pcm.getD (off + 1) 0)
  have hm : (pcm.getD off 0) % 256 < 256 := Nat.mod_lt _ (by norm_num)
  omega

theorem in_to_i16_le2_i32 (pcm : List Nat) (off : Nat) :
    -(2 : Int) ^ 31 ≤ in_to_i16_le2 pcm off ∧ in_to_i16_le2 pcm off < 2 ^ 31 := by
  have h := in_to_i16_le2_bounds pcm off
  constructor <;> [skip; skip] <;> omega

theorem interp_zero (v w : Int) (h1 : -(2 : Int) ^ 31 ≤ v) (h2 : v < 2 ^ 31) :
    interp v w 0 = v := by
  unfold interp u64 toSigned32
  simp only [Nat.mul_zero, Nat.zero_mod, Nat.zero_shiftRight, Nat.zero_add]
  simp only [show (2 : Int) ^ 64 = 18446744073709551616 from by norm_num,
    show (2 : Nat) ^ 32 = 4294967296 from by norm_num,
    show (2 : Nat) ^ 31 = 2147483648 from by norm_num,
    show (2 : Int) ^ 31 = 2147483648 from by norm_num] at *
  split <;> omega

theorem sar_zero (n : Int) : sar n 0 = n := by
  unfold sar
  rw [Int.shiftRight_eq_div_pow]
  simp

theorem sample_step_self (rate : Nat) (h : 0 < rate) : sample_step_of rate rate = 2 ^ 16 := by
  unfold sample_step_of FP_SHIFT
  rw [Nat.shiftLeft_eq]
  exact Nat.mul_div_cancel_left (2 ^ 16) h

theorem transform_add_zeros :
    ∀ src : List Int, transform_add src (List.replicate src.length 0) = src := by
  intro src
  induction src with
  | nil => rfl
  | cons a src ih =>
    show (a + 0) :: transform_add src (List.replicate src.length 0) = a :: src
    rw [ih, Int.add_zero]

theorem getD_map_int (f : Int → Int) :
    ∀ (l : List Int) (k : Nat), k < l.length → (l.map f).getD k 0 = f (l.getD k 0) := by
  intro l
  induction l with
  | nil => intro k hk; simp at hk
  | cons a l ih =>
    intro k hk
    cases k with
    | zero => rfl
    | succ n => exact ih n (by simpa using hk)

theorem ssFrames_length (dec : Nat → Int) (ss cs : Nat) :
    ∀ (n i : Nat), (ssFrames dec ss cs i n).length = 2 * n := by
  intro n
  induction n with
  | zero => intro i; rfl
  | succ n ih =>
    intro i
    show (ssFrames dec ss cs (i + 1) n).length + 1 + 1 = 2 * (n + 1)
    rw [ih (i + 1)]
    omega

theorem ssFrames_getD_even (dec : Nat → Int) (ss cs : Nat) :
    ∀ (n i j : Nat), j < n → (ssFrames dec ss cs i n).getD (2 * j) 0 = dec ((i + j) * ss) := by
  intro n
  induction n with
  | zero => intro i j hj; omega
  | succ n ih =>
    intro i j hj
    cases j with
    | zero => rfl
    | succ m =>
      have step : (ssFrames dec ss cs i (n + 1)).getD (2 * (m + 1)) 0 =
          (ssFrames dec ss cs (i + 1) n).getD (2 * m) 0 := by
        show (ssFrames dec ss cs i (n + 1)).getD (2 * m + 2) 0 = _
        rfl
      rw [show 2 * (m + 1) = 2 * m + 2 from by omega] at step
      rw [show (2 : Nat) * (m + 1) = 2 * m + 2 from by omega, step, ih (i + 1) m (by omega),
        show i + 1 + m = i + (m + 1) from by omega]

theorem ssFrames_getD_odd (dec : Nat → Int) (ss cs : Nat) :
    ∀ (n i j : Nat), j < n →
      (ssFrames dec ss cs i n).getD (2 * j + 1) 0 = dec ((i + j) * ss + cs) := by
  intro n
  induction n with
  | zero => intro i j hj; omega
  | succ n ih =>
    intro i j hj
    cases j with
    | zero => rfl
    | succ m =>
      have step : (ssFrames dec ss cs i (n + 1)).getD (2 * m + 2 + 1) 0 =
          (ssFrames dec ss cs (i + 1) n).getD (2 * m + 1) 0 := rfl
      rw [show (2 : Nat) * (m + 1) + 1 = 2 * m + 2 + 1 from by omega, step,
        ih (i + 1) m (by omega), show i + 1 + m = i + (m + 1) from by omega]

theorem nmFrames_length (dec : Nat → Int) (ss : Nat) :
    ∀ (n i : Nat), (nmFrames dec ss i n).length = n := by
  intro n
  induction n with
  | zero => intro i; rfl
  | succ n ih =>
    intro i
    show (nmFrames dec ss (i + 1) n).length + 1 = n + 1
    rw [ih (i + 1)]

theorem nmFrames_getD (dec : Nat → Int) (ss : Nat) :
    ∀ (n i j : Nat), j < n → (nmFrames dec ss i n).getD j 0 = dec ((i + j) * ss) := by
  intro n
  induction n with
  | zero => intro i j hj; omega
  | succ n ih =>
    intro i j hj
    cases j with
    | zero => rfl
    | succ m =>
      show (nmFrames dec ss (i + 1) n).getD m 0 = _
      rw [ih (i + 1) m (by omega), show i + 1 + m = i + (m + 1) from by omega]

/-! ## C2 main lemmas: unit-step reads reproduce the input -/

theorem readSS_loop_exact (s : SrcPCM) (dec : Nat → Int)
    (hdec : ∀ off, -(2 : Int) ^ 31 ≤ dec off ∧ dec off < 2 ^ 31)
    (hstep : s.sample_step = 2 ^ 16) :
    ∀ (n i : Nat), i + n ≤ s.size →
      readSS_loop s dec n i 0 =
        ⟨ssFrames dec s.sample_size s.channel_size i n, n, i + n, 0⟩ := by
  intro n
  induction n with
  | zero => intro i _; rfl
  | succ n ih =>
    intro i h
    have hv1 := hdec (i * s.sample_size)
    have hv2 := hdec (i * s.sample_size + s.channel_size)
    have hl := interp_zero (dec (i * s.sample_size))
      (dec ((i * s.sample_size + s.sample_size) % s.data_size)) hv1.1 hv1.2
    have hr := interp_zero (dec (i * s.sample_size + s.channel_size))
      (dec ((i * s.sample_size + s.sample_size) % s.data_size + s.channel_size)) hv2.1 hv2.2
    simp only [readSS_loop]
    rw [hstep]
    have e1 : ((0 : Nat) + 2 ^ 16) % 2 ^ 64 = 65536 := by norm_num
    have e2 : ((65536 : Nat) >>> FP_SHIFT) % 2 ^ 32 = 1 := by decide
    have e3 : (65536 : Nat) &&& FP_MASK = 0 := by decide
    rw [e1, e2, e3]
    rw [if_pos (by decide : (1 : Nat) ≠ 0)]
    by_cases hbreak : s.size ≤ i + 1
    · have hn0 : n = 0 := by omega
      subst hn0
      rw [if_pos hbreak, hl, hr]
      rfl
    · rw [if_neg hbreak]
      rw [ih (i + 1) (by omega)]
      rw [hl, hr]
      dsimp only
      simp only [ssFrames, PCMReadResult.mk.injEq]
      exact ⟨trivial, trivial, by omega, trivial⟩

theorem readNM_loop_exact (s : SrcPCM) (dec : Nat → Int)
    (hdec : ∀ off, -(2 : Int) ^ 31 ≤ dec off ∧ dec off < 2 ^ 31)
    (hstep : s.sample_step = 2 ^ 16) (hch : s.channels = 1) :
    ∀ (n i : Nat), i + n ≤ s.size →
      readNM_loop s dec n i 0 = ⟨nmFrames dec s.sample_size i n, n, i + n, 0⟩ := by
  intro n
  induction n with
  | zero => intro i _; rfl
  | succ n ih =>
    intro i h
    have hsum : ∀ off : Nat, sum_channels dec s.channel_size off s.channels = dec off := by
      intro off
      rw [hch]
      show (0 : Int) + dec (off + 0 * s.channel_size) = dec off
      rw [Nat.zero_mul, Nat.add_zero, Int.zero_add]
    have hv1 := hdec (i * s.sample_size)
    have hl := interp_zero (dec (i * s.sample_size))
      (dec ((i * s.sample_size + s.sample_size) % s.data_size)) hv1.1 hv1.2
    simp only [readNM_loop]
    rw [hstep, hch]
    have e1 : ((0 : Nat) + 2 ^ 16) % 2 ^ 64 = 65536 := by norm_num
    have e2 : ((65536 : Nat) >>> FP_SHIFT) % 2 ^ 32 = 1 := by decide
    have e3 : (65536 : Nat) &&& FP_MASK = 0 := by decide
    have e4 : (1 : Nat) >>> 1 = 0 := by decide
    rw [e1, e2, e3, e4]
    have hsum1 : sum_channels dec s.channel_size (i * s.sample_size) 1 = dec (i * s.sample_size) := by
      have := hsum (i * s.sample_size)
      rwa [hch] at this
    have hsum2 : sum_channels dec s.channel_size
        ((i * s.sample_size + s.sample_size) % s.data_size) 1 =
        dec ((i * s.sample_size + s.sample_size) % s.data_size) := by
      have := hsum ((i * s.sample_size + s.sample_size) % s.data_size)
      rwa [hch] at this
    rw [hsum1, hsum2, hl, sar_zero]
    rw [if_pos (by decide : (1 : Nat) ≠ 0)]
    by_cases hbreak : s.size ≤ i + 1
    · have hn0 : n = 0 := by omega
      subst hn0
      rw [if_pos hbreak]
      rfl
    · rw [if_neg hbreak]
      rw [ih (i + 1) (by omega)]
      dsimp only
      simp only [nmFrames, PCMReadResult.mk.injEq]
      exact ⟨trivial, trivial, by omega, trivial⟩

/-! ## C2: bit-exact passthrough at matching rate and channel count -/

/-- C2: for a 16-bit signed little-endian PCM source at exactly the mixer's
sample rate (`sample_step = 1.0` in Q16) and channel count, a single active,
unstopped, unpaused voice makes every 32-bit element of the mix buffer equal
the decoded input sample scaled by `(sample * volume) >> 8` with a 64-bit
intermediate — no resampling error: the stereo source on the stereo mixer and
the mono source on the mono mixer reproduce frames `i .. i+n-1` exactly. -/
theorem mixer_pcm_passthrough (pcm : List Nat) (rate size n i : Nat) (vol : Int)
    (hrate : 0 < rate) (_hvol0 : 0 ≤ vol) (_hvol : vol ≤ 255) (hn : 0 < n)
    (hin : i + n ≤ size) :
    ((mix_single_voice n 2 vol
        (samplePCM_read_ss ⟨pcm, rate, 4, 2, 2, pcm.length, size, sample_step_of rate rate⟩
          (in_to_i16_le2 pcm) n i 0)).length = n * 2 ∧
      ∀ j, j < n →
        (mix_single_voice n 2 vol
            (samplePCM_read_ss ⟨pcm, rate, 4, 2, 2, pcm.length, size, sample_step_of rate rate⟩
              (in_to_i16_le2 pcm) n i 0)).getD (2 * j) 0 =
          sar (in_to_i16_le2 pcm ((i + j) * 4) * vol) 8 ∧
        (mix_single_voice n 2 vol
            (samplePCM_read_ss ⟨pcm, rate, 4, 2, 2, pcm.length, size, sample_step_of rate rate⟩
              (in_to_i16_le2 pcm) n i 0)).getD (2 * j + 1) 0 =
          sar (in_to_i16_le2 pcm ((i + j) * 4 + 2) * vol) 8) ∧
    ((mix_single_voice n 1 vol
        (samplePCM_read_nm ⟨pcm, rate, 2, 1, 2, pcm.length, size, sample_step_of rate rate⟩
          (in_to_i16_le2 pcm) n i 0)).length = n * 1 ∧
      ∀ j, j < n →
        (mix_single_voice n 1 vol
            (samplePCM_read_nm ⟨pcm, rate, 2, 1, 2, pcm.length, size, sample_step_of rate rate⟩
              (in_to_i16_le2 pcm) n i 0)).getD j 0 =
          sar (in_to_i16_le2 pcm ((i + j) * 2) * vol) 8) := by
  have hdec : ∀ off, -(2 : Int) ^ 31 ≤ in_to_i16_le2 pcm off ∧ in_to_i16_le2 pcm off < 2 ^ 31 :=
    fun off => in_to_i16_le2_i32 pcm off
  constructor
  · have hread : samplePCM_read_ss
        ⟨pcm, rate, 4, 2, 2, pcm.length, size, sample_step_of rate rate⟩
        (in_to_i16_le2 pcm) n i 0 = ⟨ssFrames (in_to_i16_le2 pcm) 4 2 i n, n, i + n, 0⟩ := by
      unfold samplePCM_read_ss sourcePCM_read_ss
      rw [if_pos (show i < size by omega)]
      rw [readSS_loop_exact _ (in_to_i16_le2 pcm) hdec (sample_step_self rate hrate) n i hin]
      dsimp only
      rw [if_neg (lt_irrefl n)]
    rw [hread]
    have hmix : mix_single_voice n 2 vol ⟨ssFrames (in_to_i16_le2 pcm) 4 2 i n, n, i + n, 0⟩ =
        apply_master_volume vol (ssFrames (in_to_i16_le2 pcm) 4 2 i n) := by
      unfold mix_single_voice
      dsimp only
      have hlen : (ssFrames (in_to_i16_le2 pcm) 4 2 i n).length = 2 * n :=
        ssFrames_length (in_to_i16_le2 pcm) 4 2 n i
      rw [show n * 2 = (ssFrames (in_to_i16_le2 pcm) 4 2 i n).length from by omega]
      rw [List.take_length, transform_add_zeros]
    rw [hmix]
    have hlen : (ssFrames (in_to_i16_le2 pcm) 4 2 i n).length = 2 * n :=
      ssFrames_length (in_to_i16_le2 pcm) 4 2 n i
    constructor
    · unfold apply_master_volume
      rw [List.length_map, hlen]
      omega
    · intro j hj
      constructor
      · unfold apply_master_volume
        rw [getD_map_int _ _ _ (by omega : 2 * j < (ssFrames (in_to_i16_le2 pcm) 4 2 i n).length)]
        rw [ssFrames_getD_even (in_to_i16_le2 pcm) 4 2 n i j hj]
      · unfold apply_master_volume
        rw [getD_map_int _ _ _
          (by omega : 2 * j + 1 < (ssFrames (in_to_i16_le2 pcm) 4 2 i n).length)]
        rw [ssFrames_getD_odd (in_to_i16_le2 pcm) 4 2 n i j hj]
  · have hread : samplePCM_read_nm
        ⟨pcm, rate, 2, 1, 2, pcm.length, size, sample_step_of rate rate⟩
        (in_to_i16_le2 pcm) n i 0 = ⟨nmFrames (in_to_i16_le2 pcm) 2 i n, n, i + n, 0⟩ := by
      unfold samplePCM_read_nm sourcePCM_read_nm
      rw [if_pos (show i < size by omega)]
      rw [readNM_loop_exact _ (in_to_i16_le2 pcm) hdec (sample_step_self rate hrate) rfl n i hin]
      dsimp only
      rw [if_neg (lt_irrefl n)]
    rw [hread]
    have hmix : mix_single_voice n 1 vol ⟨nmFrames (in_to_i16_le2 pcm) 2 i n, n, i + n, 0⟩ =
        apply_master_volume vol (nmFrames (in_to_i16_le2 pcm) 2 i n) := by
      unfold mix_single_voice
      dsimp only
      have hlen : (nmFrames (in_to_i16_le2 pcm) 2 i n).length = n :=
        nmFrames_length (in_to_i16_le2 pcm) 2 n i
      rw [show n * 1 = (nmFrames (in_to_i16_le2 pcm) 2 i n).length from by omega]
      rw [List.take_length, transform_add_zeros]
    rw [hmix]
    have hlen : (nmFrames (in_to_i16_le2 pcm) 2 i n).length = n :=
      nmFrames_length (in_to_i16_le2 pcm) 2 n i
    constructor
    · unfold apply_master_volume
      rw [List.length_map, hlen]
      omega
    · intro j hj
      unfold apply_master_volume
      rw [getD_map_int _ _ _ (by omega : j < (nmFrames (in_to_i16_le2 pcm) 2 i n).length)]
      rw [nmFrames_getD (in_to_i16_le2 pcm) 2 n i j hj]

/-- C2 witness: a stereo WAV holding the single frame `(0x1234, -0x1224)`
(bytes `34 12 DC ED`) at the mixer's rate, volume 255, reproduces
`0x1234 * 255 >> 8 = 4641` in the mix buffer; a mono WAV with sample
10000 (bytes `10 27`) yields `9960`. -/
theorem mixer_pcm_passthrough_witness :
    (mix_single_voice 1 2 255
        (samplePCM_read_ss ⟨[52, 18, 220, 237], 44100, 4, 2, 2, 4, 1,
            sample_step_of 44100 44100⟩
          (in_to_i16_le2 [52, 18, 220, 237]) 1 0 0)).getD 0 0 =
      sar (in_to_i16_le2 [52, 18, 220, 237] ((0 + 0) * 4) * 255) 8 ∧
    (mix_single_voice 1 2 255
        (samplePCM_read_ss ⟨[52, 18, 220, 237], 44100, 4, 2, 2, 4, 1,
            sample_step_of 44100 44100⟩
          (in_to_i16_le2 [52, 18, 220, 237]) 1 0 0)).getD 1 0 =
      sar (in_to_i16_le2 [52, 18, 220, 237] ((0 + 0) * 4 + 2) * 255) 8 ∧
    (mix_single_voice 1 1 255
        (samplePCM_read_nm ⟨[16, 39], 44100, 2, 1, 2, 2, 1, sample_step_of 44100 44100⟩
          (in_to_i16_le2 [16, 39]) 1 0 0)).getD 0 0 =
      sar (in_to_i16_le2 [16, 39] ((0 + 0) * 2) * 255) 8 ∧
    sar (in_to_i16_le2 [52, 18, 220, 237] 0 * 255) 8 = 4641 ∧
    sar (in_to_i16_le2 [16, 39] 0 * 255) 8 = 9960 :=
  ⟨(by
      have h := ((mixer_pcm_passthrough [52, 18, 220, 237] 44100 1 1 0 255 (by decide)
        (by decide) (by decide) (by decide) (by decide)).1.2 0 (by decide)).1
      rw [show 2 * 0 = 0 from rfl] at h
      exact h),
   (by
      have h := ((mixer_pcm_passthrough [52, 18, 220, 237] 44100 1 1 0 255 (by decide)
        (by decide) (by decide) (by decide) (by decide)).1.2 0 (by decide)).2
      rw [show 2 * 0 + 1 = 1 from rfl] at h
      exact h),
   (mixer_pcm_passthrough [16, 39] 44100 1 1 0 255 (by decide)
      (by decide) (by decide) (by decide) (by decide)).2.2 0 (by decide),
   by decide, by decide⟩

end Majimix
